import Mathlib

/-!
Verification development for the chordht repository: a shallow embedding of
the Chord node in src/chord_node/src/node.rs, with theorems settling the
frozen claims about routing, stabilization, notification, replication and
the local key/value store.

Machine integers (u64 node ids) are modelled as Nat; the node code only
compares ids (no arithmetic appears in the embedded fragments), so no
modular reduction is needed.  The SHA-1 based hash of chord_proto::hash_addr
is kept abstract as a parameter of type String → Nat.  The per-node HashMap
store is modelled as an association list with last-writer-wins insertion.
Remote calls are modelled by passing their results in as parameters (an
oracle from address to optional answer for find_successor, explicit result
values for get_predecessor and the key-transfer RPCs).
-/

namespace Chord

/-- Constants from src/chord_node/src/constants.rs. -/
def FINGER_TABLE_SIZE : Nat := 64

def REPLICATION_COUNT : Nat := 2

def SUCCESSOR_LIST_LIMIT : Nat := 5

/-- NodeInfo from the proto: an id together with a network address. -/
structure NodeInfo where
  id : Nat
  address : String
  deriving DecidableEq, Repr

/-- The local key/value store (HashMap String String in the source), as an
association list. -/
abbrev Store := List (String × String)

/-- Lookup in the store (HashMap::get). -/
def storeGet : Store → String → Option String
  | [], _ => none
  | kv :: rest, k => if kv.1 = k then some kv.2 else storeGet rest k

/-- Removal from the store (HashMap::remove). -/
def storeRemove : Store → String → Store
  | [], _ => []
  | kv :: rest, k => if kv.1 = k then storeRemove rest k else kv :: storeRemove rest k

/-- Insertion into the store (HashMap::insert, last writer wins). -/
def storeInsert (s : Store) (k v : String) : Store :=
  (k, v) :: storeRemove s k

/-- NodeState from node.rs: predecessor, finger table, successor list, store. -/
structure NodeState where
  predecessor : Option NodeInfo
  finger_table : List NodeInfo
  successor_list : List NodeInfo
  store : Store
  deriving DecidableEq, Repr

/-- Status codes used by the handlers (tonic::Status in the source). -/
inductive Status where
  | notFound (msg : String)
  | unavailable (msg : String)
  | internal (msg : String)
  deriving DecidableEq, Repr

/-- Node::is_in_range — circular open interval (start, stop). -/
def is_in_range (id start stop : Nat) : Bool :=
  if start < stop then decide (id > start) && decide (id < stop)
  else decide (id > start) || decide (id < stop)

/-- Node::is_in_range_inclusive — circular half-open interval (start, stop]. -/
def is_in_range_inclusive (id start stop : Nat) : Bool :=
  if start < stop then decide (id > start) && decide (id ≤ stop)
  else decide (id > start) || decide (id ≤ stop)

/-- Node::new — initial state: no predecessor, finger table full of self,
successor list `[self]`, empty store. -/
def Node.new (id : Nat) (addr : String) : NodeState :=
  { predecessor := none
    finger_table := List.replicate FINGER_TABLE_SIZE ⟨id, addr⟩
    successor_list := [⟨id, addr⟩]
    store := [] }

/-- Stable descending insertion by id, used to model the stable
sort_by(descending id) of get_closest_candidates: an element inserted later
is placed after already-present elements of equal id. -/
def insertByIdDesc (a : NodeInfo) : List NodeInfo → List NodeInfo
  | [] => [a]
  | b :: rest => if a.id ≤ b.id then b :: insertByIdDesc a rest else a :: b :: rest

/-- Stable descending sort by id (Vec::sort_by with b.id.cmp(&a.id)). -/
def sortByIdDesc (l : List NodeInfo) : List NodeInfo :=
  l.foldl (fun acc a => insertByIdDesc a acc) []

/-- Tail of adjacent deduplication by id: drop elements whose id equals the
previously kept element's id, otherwise keep and continue from the new one. -/
def dedupByIdAux (prev : NodeInfo) : List NodeInfo → List NodeInfo
  | [] => []
  | b :: rest =>
    if prev.id = b.id then dedupByIdAux prev rest
    else b :: dedupByIdAux b rest

/-- Adjacent deduplication by id (Vec::dedup_by with a.id == b.id), keeping
the first element of each run. -/
def dedupById : List NodeInfo → List NodeInfo
  | [] => []
  | a :: rest => a :: dedupByIdAux a rest

/-- Node::get_closest_candidates — collect fingers with non-empty address
whose id lies in the open interval (self.id, id), scanning the table from
index 63 down to 0, then sort descending by id and dedup adjacent ids. -/
def get_closest_candidates (selfId targetId : Nat) (finger_table : List NodeInfo) : List NodeInfo :=
  let collected := finger_table.reverse.filter
    (fun f => (f.address != "") && is_in_range f.id selfId targetId)
  dedupById (sortByIdDesc collected)

/-- Try a remote find_successor on each hop in order, via an oracle mapping
an address to `some answer` (RPC success) or `none` (transport failure);
return the first success. -/
def tryEach (oracle : String → Option NodeInfo) : List NodeInfo → Option NodeInfo
  | [] => none
  | c :: rest =>
    match oracle c.address with
    | some info => some info
    | none => tryEach oracle rest

/-- The hops actually attempted by `tryEach` (all failures up to and
including the first success, if any). -/
def tryEachTrace (oracle : String → Option NodeInfo) : List NodeInfo → List NodeInfo
  | [] => []
  | c :: rest =>
    match oracle c.address with
    | some _ => [c]
    | none => c :: tryEachTrace oracle rest

/-- The fallback iteration of find_successor_internal over the successor
list: the source skips an entry exactly when succ.id == self.id. -/
def fallback_targets (selfId : Nat) (successor_list : List NodeInfo) : List NodeInfo :=
  successor_list.filter (fun s => s.id != selfId)

/-- Modelled from the spec wording of the fallback (for comparison with the
source): iterate the successor list skipping self and already-tried ids. -/
def fallback_targets_claim (selfId : Nat) (triedIds : List Nat)
    (successor_list : List NodeInfo) : List NodeInfo :=
  successor_list.filter (fun s => (s.id != selfId) && !(triedIds.contains s.id))

/-- Node::find_successor_internal, with remote calls resolved by `oracle`.
Returns `none` for the panic on an empty successor list and for the final
Unavailable error; candidate entries equal to self are skipped, and on total
candidate failure the successor-list fallback (skipping only self) runs. -/
def find_successor_internal (selfId targetId : Nat) (st : NodeState)
    (oracle : String → Option NodeInfo) : Option NodeInfo :=
  match st.successor_list with
  | [] => none
  | successor :: _ =>
    if is_in_range_inclusive targetId selfId successor.id then some successor
    else
      let candidates := get_closest_candidates selfId targetId st.finger_table
      if candidates.isEmpty then some successor
      else
        let tried := candidates.filter (fun c => c.id != selfId)
        match tryEach oracle tried with
        | some info => some info
        | none => tryEach oracle (fallback_targets selfId st.successor_list)

/-- The full sequence of remote find_successor attempts made by
find_successor_internal (candidate phase, then fallback phase if every
candidate failed). -/
def find_successor_attempt_trace (selfId targetId : Nat) (st : NodeState)
    (oracle : String → Option NodeInfo) : List NodeInfo :=
  match st.successor_list with
  | [] => []
  | successor :: _ =>
    if is_in_range_inclusive targetId selfId successor.id then []
    else
      let candidates := get_closest_candidates selfId targetId st.finger_table
      if candidates.isEmpty then []
      else
        let tried := candidates.filter (fun c => c.id != selfId)
        match tryEach oracle tried with
        | some _ => tryEachTrace oracle tried
        | none =>
          tryEachTrace oracle tried ++
            tryEachTrace oracle (fallback_targets selfId st.successor_list)

/-- Write through index 0 of a list (the source writes successor_list[0]
under the invariant that the list is non-empty). -/
def set_head (l : List NodeInfo) (x : NodeInfo) : List NodeInfo :=
  match l with
  | [] => []
  | _ :: rest => x :: rest

/-- Node::join — set successor_list[0] to the info returned by the remote
find_successor on the bootstrap peer. -/
def join_step (st : NodeState) (info : NodeInfo) : NodeState :=
  { st with successor_list := set_head st.successor_list info }

/-- The possible results of the get_predecessor RPC issued by stabilize. -/
inductive GetPredResult where
  | ok (x : NodeInfo)
  | notFound
  | transportErr
  deriving DecidableEq, Repr

/-- The successor-repair phase of Node::stabilize: `s` is the successor read
from the head of the list before the RPC, `r` the get_predecessor result.
Returns the new state and whether stabilize returned early (skipping the
notify and successor-list refresh).  On a successful RPC the head is
replaced by x only when x is not the protobuf default (id 0 with empty
address), x.id lies in the open interval (self.id, s.id), and the head id
still equals s.id; NotFound leaves the state alone; any other error removes
the head when the list has more than one entry and then returns early. -/
def stabilize_update (selfId : Nat) (s : NodeInfo) (r : GetPredResult)
    (st : NodeState) : NodeState × Bool :=
  match r with
  | GetPredResult.ok x =>
    let should_update :=
      if x.id ≠ 0 ∨ x.address ≠ "" then is_in_range x.id selfId s.id else false
    if should_update then
      if st.successor_list.head?.map NodeInfo.id = some s.id then
        ({ st with successor_list := set_head st.successor_list x }, false)
      else (st, false)
    else (st, false)
  | GetPredResult.notFound => (st, false)
  | GetPredResult.transportErr =>
    if st.successor_list.length > 1 then
      ({ st with successor_list := st.successor_list.tail }, true)
    else (st, false)

/-- Node::update_successor_list — on a successful get_successor_list RPC the
new list is the current head followed by the received successors, truncated
to SUCCESSOR_LIST_LIMIT entries. -/
def update_successor_list (st : NodeState) (received : List NodeInfo) : NodeState :=
  match st.successor_list with
  | [] => st
  | h :: _ => { st with successor_list := (h :: received).take SUCCESSOR_LIST_LIMIT }

/-- The keys selected by Node::transfer_keys_to_new_predecessor: every store
entry whose hashed key is NOT in the half-open interval (newPred.id, self.id]. -/
def keys_to_transfer (selfId : Nat) (hash : String → Nat) (newPredId : Nat)
    (store : Store) : Store :=
  store.filter (fun kv => !(is_in_range_inclusive (hash kv.1) newPredId selfId))

/-- The Chord::notify handler.  Adopt the caller when the predecessor is
absent or the caller's id lies in the open interval (predecessor.id,
self.id); on adoption, record the new predecessor and hand the selected
transfer payload to a detached task (second component `some payload`);
otherwise leave the state unchanged (second component `none`). -/
def notify_handler (selfId : Nat) (hash : String → Nat) (p : NodeInfo)
    (st : NodeState) : NodeState × Option Store :=
  let should_update :=
    match st.predecessor with
    | some current => is_in_range p.id current.id selfId
    | none => true
  if should_update then
    ({ st with predecessor := some p },
      some (keys_to_transfer selfId hash p.id st.store))
  else (st, none)

/-- Result of a remote call as seen by a detached task. -/
inductive RpcResult where
  | ok
  | err
  deriving DecidableEq, Repr

/-- The detached task spawned by transfer_keys_to_new_predecessor: connect to
the new predecessor, send transfer_keys, and only on success remove the
transferred keys from the local store; on connect or RPC failure the store
is left untouched. -/
def transfer_task (connectR rpcR : RpcResult) (keys_to_remove : List String)
    (store : Store) : Store :=
  match connectR with
  | RpcResult.err => store
  | RpcResult.ok =>
    match rpcR with
    | RpcResult.err => store
    | RpcResult.ok => keys_to_remove.foldl (fun s k => storeRemove s k) store

/-- PutResponse from the proto. -/
structure PutResponse where
  success : Bool
  deriving DecidableEq, Repr

/-- What the Chord::put handler does after routing: store locally and spawn
replication, or forward to the owner. -/
inductive PutOutcome where
  | stored (replicationTargets : List NodeInfo) (resp : PutResponse)
  | forwarded (owner : NodeInfo)
  deriving DecidableEq, Repr

/-- The dispatch of Chord::put once find_successor(hash(key)) has produced
`owner`.  When the owner is this node, the pair is inserted into the local
store, a replicate RPC is spawned to each of the first REPLICATION_COUNT
entries of the successor list (taken as-is, with no filtering), and the
response is success regardless of the replication outcome; otherwise the
request is forwarded to the owner. -/
def put_step (selfId : Nat) (st : NodeState) (owner : NodeInfo)
    (key value : String) : NodeState × PutOutcome :=
  if owner.id = selfId then
    ({ st with store := storeInsert st.store key value },
      PutOutcome.stored (st.successor_list.take REPLICATION_COUNT) { success := true })
  else (st, PutOutcome.forwarded owner)

/-- Modelled from the spec wording of the put replication targets (for
comparison with the source): the first REPLICATION_COUNT entries of the
successor list excluding self. -/
def put_replication_targets_claim (selfId : Nat)
    (successor_list : List NodeInfo) : List NodeInfo :=
  (successor_list.filter (fun s => s.id != selfId)).take REPLICATION_COUNT

/-- GetResponse from the proto. -/
structure GetResponse where
  value : String
  found : Bool
  deriving DecidableEq, Repr

/-- What the Chord::get handler does after routing. -/
inductive GetOutcome where
  | answered (resp : GetResponse)
  | forwarded (owner : NodeInfo)
  deriving DecidableEq, Repr

/-- The dispatch of Chord::get once find_successor(hash(key)) has produced
`owner`: answer from the local store (found=false with empty value when the
key is absent — a successful response, not an error), or forward.  The
handler takes only the read lock; it never modifies the state. -/
def get_step (selfId : Nat) (st : NodeState) (owner : NodeInfo)
    (key : String) : GetOutcome :=
  if owner.id = selfId then
    match storeGet st.store key with
    | some v => GetOutcome.answered { value := v, found := true }
    | none => GetOutcome.answered { value := "", found := false }
  else GetOutcome.forwarded owner

/-- The Chord::replicate handler: insert/overwrite the pair locally. -/
def replicate_handler (st : NodeState) (key value : String) : NodeState :=
  { st with store := storeInsert st.store key value }

/-- The Chord::transfer_keys handler: insert every received pair locally. -/
def transfer_keys_handler (st : NodeState) (keys : Store) : NodeState :=
  { st with store := keys.foldl (fun s kv => storeInsert s kv.1 kv.2) st.store }

/-- Node::check_predecessor: clear the predecessor when the connect or the
ping fails (`alive = false`), otherwise keep the state. -/
def check_predecessor_step (st : NodeState) (alive : Bool) : NodeState :=
  match st.predecessor with
  | none => st
  | some _ => if alive then st else { st with predecessor := none }

/-- Node::fix_fingers: on a successful lookup write the result to
finger_table[i]; on failure leave the state unchanged. -/
def fix_fingers_step (st : NodeState) (i : Nat) (result : Option NodeInfo) : NodeState :=
  match result with
  | some succ => { st with finger_table := st.finger_table.set i succ }
  | none => st

/-- The Chord::get_successor handler: the head of the successor list, or an
Internal error when the list is empty. -/
def get_successor (st : NodeState) : Except Status NodeInfo :=
  match st.successor_list.head? with
  | some s => Except.ok s
  | none => Except.error (Status.internal "No successor found")

/-- The Chord::get_predecessor handler: the stored predecessor, or a
NotFound error when it is absent.  Takes only the read lock; never modifies
the state. -/
def get_predecessor_handler (st : NodeState) : Except Status NodeInfo :=
  match st.predecessor with
  | some p => Except.ok p
  | none => Except.error (Status.notFound "No predecessor")

/-- The last value paired with a key in a list of pairs, if any (the value a
fold of storeInsert over the list leaves behind for that key). -/
def lookupLast : Store → String → Option String
  | [], _ => none
  | kv :: rest, k =>
    match lookupLast rest k with
    | some v => some v
    | none => if kv.1 = k then some kv.2 else none

/-- The successor-list well-formedness invariant: non-empty and at most
SUCCESSOR_LIST_LIMIT entries. -/
def successor_list_wf (st : NodeState) : Prop :=
  st.successor_list ≠ [] ∧ st.successor_list.length ≤ SUCCESSOR_LIST_LIMIT

instance (st : NodeState) : Decidable (successor_list_wf st) := by
  unfold successor_list_wf
  infer_instance

/-- Node::maintain_replication: with pred_id defaulting to self.id when the
predecessor is absent, push every store entry classified primary (hash(key)
in the half-open interval (pred_id, self.id]) to each of the first
REPLICATION_COUNT successor-list entries (taken as-is, with no filtering);
nothing is pushed when that prefix is empty. -/
def maintain_replication_pushes (selfId : Nat) (hash : String → Nat)
    (st : NodeState) : List ((String × String) × NodeInfo) :=
  let pred_id :=
    match st.predecessor with
    | some p => p.id
    | none => selfId
  let succs := st.successor_list.take REPLICATION_COUNT
  if succs.isEmpty then []
  else
    (st.store.filter (fun kv => is_in_range_inclusive (hash kv.1) pred_id selfId)).flatMap
      (fun kv => succs.map (fun s => (kv, s)))

end Chord

namespace Chord

/-- The left endpoint is never inside the open circular interval. -/
theorem is_in_range_left_endpoint (a b : Nat) : is_in_range a a b = false := by
  unfold is_in_range
  split <;> simp <;> omega

/-- The degenerate half-open interval (a, a] contains the whole ring. -/
theorem is_in_range_inclusive_degenerate (x a : Nat) :
    is_in_range_inclusive x a a = true := by
  unfold is_in_range_inclusive
  split <;> simp <;> omega

/-- storeGet after storeRemove: the removed key reads none, others are
unchanged. -/
theorem storeGet_remove (s : Store) (k k' : String) :
    storeGet (storeRemove s k) k' = if k' = k then none else storeGet s k' := by
  induction s with
  | nil => simp [storeRemove, storeGet]
  | cons kv rest ih =>
    by_cases h1 : kv.1 = k
    · simp only [storeRemove, if_pos h1, ih, storeGet]
      by_cases h2 : k' = k
      · simp [h2]
      · have h3 : ¬ kv.1 = k' := fun hh => h2 (hh.symm.trans h1)
        simp [h2, h3]
    · simp only [storeRemove, if_neg h1, storeGet]
      by_cases h2 : kv.1 = k'
      · have h3 : ¬ k' = k := fun hh => h1 (h2.trans hh)
        simp [h2, h3]
      · simp [h2, ih]

/-- storeGet after storeInsert: the inserted key reads the new value, others
are unchanged. -/
theorem storeGet_insert (s : Store) (k v k' : String) :
    storeGet (storeInsert s k v) k' = if k' = k then some v else storeGet s k' := by
  simp only [storeInsert, storeGet]
  by_cases h : k = k'
  · simp [h]
  · have h' : ¬ k' = k := fun hh => h hh.symm
    simp [h, h', storeGet_remove]

/-- Removing a key twice is the same as removing it once. -/
theorem storeRemove_remove_self (s : Store) (k : String) :
    storeRemove (storeRemove s k) k = storeRemove s k := by
  induction s with
  | nil => simp [storeRemove]
  | cons kv rest ih =>
    by_cases h : kv.1 = k <;> simp [storeRemove, h, ih]

/-- Inserting the same pair twice produces the same store as inserting it
once. -/
theorem storeInsert_idem (s : Store) (k v : String) :
    storeInsert (storeInsert s k v) k v = storeInsert s k v := by
  simp [storeInsert, storeRemove, storeRemove_remove_self]

/-- storeGet after removing a whole list of keys. -/
theorem storeGet_removeAll (ks : List String) (s : Store) (k : String) :
    storeGet (ks.foldl (fun s' k' => storeRemove s' k') s) k =
      if k ∈ ks then none else storeGet s k := by
  induction ks generalizing s with
  | nil => simp
  | cons k0 rest ih =>
    simp only [List.foldl_cons, ih, List.mem_cons]
    by_cases h0 : k = k0
    · subst h0
      by_cases h : k ∈ rest <;> simp [h, storeGet_remove]
    · by_cases h : k ∈ rest <;> simp [h, h0, storeGet_remove]

/-- Folding storeInsert over a list of pairs: a key reads the last value the
list assigns to it, and keys the list does not mention are unchanged. -/
theorem storeGet_foldl_insert (keys : Store) (s : Store) (k : String) :
    storeGet (keys.foldl (fun s' kv => storeInsert s' kv.1 kv.2) s) k =
      match lookupLast keys k with
      | some v => some v
      | none => storeGet s k := by
  induction keys generalizing s with
  | nil => simp [lookupLast]
  | cons kv rest ih =>
    simp only [List.foldl_cons, ih]
    cases hl : lookupLast rest k with
    | some v => simp [lookupLast, hl]
    | none =>
      have hcons : lookupLast (kv :: rest) k = if kv.1 = k then some kv.2 else none := by
        simp [lookupLast, hl]
      rw [hcons, storeGet_insert]
      by_cases h : kv.1 = k
      · simp [h]
      · have h' : ¬ k = kv.1 := fun hh => h hh.symm
        simp [h, h']

/-- Membership in the transfer selection of notify is exactly membership in
the store with a hashed key outside the half-open interval. -/
theorem mem_keys_to_transfer (selfId : Nat) (hash : String → Nat) (pid : Nat)
    (store : Store) (k v : String) :
    (k, v) ∈ keys_to_transfer selfId hash pid store ↔
      ((k, v) ∈ store ∧ is_in_range_inclusive (hash k) pid selfId = false) := by
  unfold keys_to_transfer
  simp [List.mem_filter]

/-- Writing through index 0 preserves the length. -/
theorem set_head_length (l : List NodeInfo) (x : NodeInfo) :
    (set_head l x).length = l.length := by
  cases l <;> simp [set_head]

/-- Writing through index 0 of a non-empty list keeps it non-empty. -/
theorem set_head_ne_nil (l : List NodeInfo) (x : NodeInfo) (h : l ≠ []) :
    set_head l x ≠ [] := by
  cases l <;> simp_all [set_head]

/-- C5: the circular containment predicates satisfy the spec's definitions
for all identifiers below 2^64: the open interval (a, b) contains x iff
(a < b and a < x < b) or (a ≥ b and (x > a or x < b)); the half-open
interval (a, b] contains x iff (a < b and a < x ≤ b) or (a ≥ b and
(x > a or x ≤ b)); and in the degenerate case a = b the open interval is
the whole ring minus a while the half-open interval is the whole ring. -/
theorem c5_range_predicates (a b x : Nat)
    (ha : a < 2 ^ 64) (hb : b < 2 ^ 64) (hx : x < 2 ^ 64) :
    (is_in_range x a b = true ↔
      ((a < b ∧ a < x ∧ x < b) ∨ (a ≥ b ∧ (x > a ∨ x < b)))) ∧
    (is_in_range_inclusive x a b = true ↔
      ((a < b ∧ a < x ∧ x ≤ b) ∨ (a ≥ b ∧ (x > a ∨ x ≤ b)))) ∧
    (a = b →
      ((is_in_range x a b = true ↔ x ≠ a) ∧ is_in_range_inclusive x a b = true)) := by
  refine ⟨?_, ?_, ?_⟩
  · unfold is_in_range
    split <;> simp <;> omega
  · unfold is_in_range_inclusive
    split <;> simp <;> omega
  · intro h
    subst h
    refine ⟨?_, is_in_range_inclusive_degenerate x a⟩
    unfold is_in_range
    split <;> simp <;> omega

/-- C5 witness: the range predicates evaluated at concrete points through
the characterization. -/
theorem c5_range_predicates_witness :
    is_in_range 3 1 5 = true ∧ is_in_range_inclusive 7 6 6 = true := by
  have h1 := c5_range_predicates 1 5 3 (by norm_num) (by norm_num) (by norm_num)
  have h2 := c5_range_predicates 6 6 7 (by norm_num) (by norm_num) (by norm_num)
  exact ⟨h1.1.mpr (Or.inl (by norm_num)), (h2.2.2 rfl).2⟩

/-- C1 (amended): when find_successor names this node as owner, put inserts
the pair into the local store (leaving other keys unchanged), spawns one
replicate RPC to each of the first REPLICATION_COUNT (= 2) entries of the
successor list taken as-is — self is NOT excluded — and answers success
regardless of the replication outcome. -/
theorem c1_put_local_stores_and_replicates (selfId : Nat) (st : NodeState)
    (owner : NodeInfo) (key value : String) (howner : owner.id = selfId) :
    (put_step selfId st owner key value).1.store = storeInsert st.store key value ∧
    storeGet (put_step selfId st owner key value).1.store key = some value ∧
    (∀ k, k ≠ key →
      storeGet (put_step selfId st owner key value).1.store k = storeGet st.store k) ∧
    (put_step selfId st owner key value).2 =
      PutOutcome.stored (st.successor_list.take REPLICATION_COUNT) { success := true } ∧
    REPLICATION_COUNT = 2 := by
  simp only [put_step, if_pos howner]
  refine ⟨by trivial, ?_, ?_, by trivial, by trivial⟩
  · simp [storeGet_insert]
  · intro k hk
    simp [storeGet_insert, hk]

/-- C1 witness: a single-node ring stores locally and replicates to the one
successor-list entry (itself). -/
theorem c1_put_local_stores_and_replicates_witness :
    (put_step 0 (Node.new 0 "a") ⟨0, "a"⟩ "k" "v").2 =
      PutOutcome.stored [⟨0, "a"⟩] { success := true } := by
  have h := c1_put_local_stores_and_replicates 0 (Node.new 0 "a") ⟨0, "a"⟩ "k" "v" rfl
  rw [h.2.2.2.1]
  rfl

/-- C1 counterexample: with self id 0 and successor list [self, 5, 9], put
replicates to [self, 5] — the first two entries including self — while the
claim's reading (the first two entries excluding self) yields [5, 9]. -/
theorem c1_counterexample :
    (put_step 0
        { predecessor := none, finger_table := [],
          successor_list := [⟨0, "a"⟩, ⟨5, "b"⟩, ⟨9, "c"⟩], store := [] }
        ⟨0, "a"⟩ "k" "v").2 =
      PutOutcome.stored [⟨0, "a"⟩, ⟨5, "b"⟩] { success := true } ∧
    put_replication_targets_claim 0 [⟨0, "a"⟩, ⟨5, "b"⟩, ⟨9, "c"⟩] =
      [⟨5, "b"⟩, ⟨9, "c"⟩] ∧
    ([⟨0, "a"⟩, ⟨5, "b"⟩] : List NodeInfo) ≠ [⟨5, "b"⟩, ⟨9, "c"⟩] := by
  decide

/-- C2 (amended): when the immediate-successor test fails, finger candidates
exist and every candidate attempt fails, find_successor_internal falls back
to the successor-list entries filtered only by id ≠ self.id — ids already
tried as finger candidates are not skipped. -/
theorem c2_fallback_filters_only_self (selfId targetId : Nat) (st : NodeState)
    (oracle : String → Option NodeInfo) (succ : NodeInfo) (rest : List NodeInfo)
    (hsl : st.successor_list = succ :: rest)
    (hnear : is_in_range_inclusive targetId selfId succ.id = false)
    (hcand : (get_closest_candidates selfId targetId st.finger_table).isEmpty = false)
    (hfail : tryEach oracle
      ((get_closest_candidates selfId targetId st.finger_table).filter
        (fun c => c.id != selfId)) = none) :
    find_successor_internal selfId targetId st oracle =
      tryEach oracle (st.successor_list.filter (fun s => s.id != selfId)) := by
  unfold find_successor_internal fallback_targets
  rw [hsl]
  simp [hnear, hcand, hfail]

/-- C2 witness: a node with id 0, a dead successor 5 everywhere in the
finger table, looking up id 10 with every remote call failing, runs the
fallback over the successor list and gets no answer. -/
theorem c2_fallback_filters_only_self_witness :
    find_successor_internal 0 10
      { predecessor := none, finger_table := List.replicate 64 ⟨5, "b"⟩,
        successor_list := [⟨5, "b"⟩], store := [] } (fun _ => none) = none := by
  have h := c2_fallback_filters_only_self 0 10
    { predecessor := none, finger_table := List.replicate 64 ⟨5, "b"⟩,
      successor_list := [⟨5, "b"⟩], store := [] }
    (fun _ => none) ⟨5, "b"⟩ [] rfl (by decide) (by decide) (by decide)
  rw [h]
  decide

/-- C2 counterexample: in that same configuration the attempt trace contacts
node 5 twice — once as a finger candidate and again during the successor-list
fallback — whereas the claim's skipping rule (self and already-tried ids)
would leave the fallback empty. -/
theorem c2_counterexample :
    find_successor_attempt_trace 0 10
      { predecessor := none, finger_table := List.replicate 64 ⟨5, "b"⟩,
        successor_list := [⟨5, "b"⟩], store := [] } (fun _ => none) =
      [⟨5, "b"⟩, ⟨5, "b"⟩] ∧
    fallback_targets_claim 0
      (((get_closest_candidates 0 10 (List.replicate 64 ⟨5, "b"⟩)).filter
        (fun c => c.id != 0)).map NodeInfo.id) [⟨5, "b"⟩] = [] := by
  decide

/-- C3 (amended): on a successful get_predecessor returning x, the head of
the successor list is replaced by x iff x is not the protobuf default value
(id 0 with empty address), x.id lies in the open interval (self.id, s.id)
and the head id still equals the observed s.id; on a transport error the
head is removed iff the list has more than one entry, and exactly then
stabilize returns early without notifying. -/
theorem c3_stabilize_characterization (selfId : Nat) (s x : NodeInfo) (st : NodeState) :
    (stabilize_update selfId s (GetPredResult.ok x) st =
      (if (x.id ≠ 0 ∨ x.address ≠ "") ∧ is_in_range x.id selfId s.id = true ∧
          st.successor_list.head?.map NodeInfo.id = some s.id
        then { st with successor_list := set_head st.successor_list x }
        else st, false)) ∧
    (stabilize_update selfId s GetPredResult.transportErr st =
      if 1 < st.successor_list.length
      then ({ st with successor_list := st.successor_list.tail }, true)
      else (st, false)) := by
  constructor
  · unfold stabilize_update
    by_cases h1 : x.id ≠ 0 ∨ x.address ≠ ""
    · by_cases h2 : is_in_range x.id selfId s.id = true
      · by_cases h3 : st.successor_list.head?.map NodeInfo.id = some s.id <;>
          simp [h1, h2, h3]
      · simp [h1, h2]
    · simp [h1]
  · unfold stabilize_update
    by_cases h : 1 < st.successor_list.length <;> simp [h]

/-- C3 counterexample: with self id 5, observed successor s = (3, "c") still
at the head, a successful RPC returning the default NodeInfo x = (0, "")
satisfies the claim's adoption condition (0 lies in the wrapped open
interval (5, 3) and the head guard holds) yet the head is not replaced. -/
theorem c3_counterexample :
    is_in_range 0 5 3 = true ∧
    ({ predecessor := none, finger_table := [], successor_list := [⟨3, "c"⟩],
        store := [] } : NodeState).successor_list.head?.map NodeInfo.id = some 3 ∧
    stabilize_update 5 ⟨3, "c"⟩ (GetPredResult.ok ⟨0, ""⟩)
        { predecessor := none, finger_table := [], successor_list := [⟨3, "c"⟩],
          store := [] } =
      ({ predecessor := none, finger_table := [], successor_list := [⟨3, "c"⟩],
          store := [] }, false) ∧
    (⟨3, "c"⟩ : NodeInfo) ≠ ⟨0, ""⟩ := by
  decide

/-- C4: notify adopts the caller p iff the predecessor is absent or p.id
lies in the open interval (predecessor.id, self.id); on adoption the
transfer payload is exactly the store entries whose hashed key is not in
(p.id, self.id]; without adoption the state is unchanged. -/
theorem c4_notify_adoption (selfId : Nat) (hash : String → Nat) (p : NodeInfo)
    (st : NodeState) :
    ((st.predecessor = none ∨
        ∃ cur, st.predecessor = some cur ∧ is_in_range p.id cur.id selfId = true) ↔
      (notify_handler selfId hash p st).2.isSome = true) ∧
    (∀ payload, (notify_handler selfId hash p st).2 = some payload →
      (notify_handler selfId hash p st).1 = { st with predecessor := some p } ∧
      ∀ k v, ((k, v) ∈ payload ↔
        ((k, v) ∈ st.store ∧ is_in_range_inclusive (hash k) p.id selfId = false))) ∧
    ((notify_handler selfId hash p st).2 = none →
      notify_handler selfId hash p st = (st, none)) := by
  cases hp : st.predecessor with
  | none =>
    simp only [notify_handler, hp, if_true]
    refine ⟨by simp, ?_, by simp⟩
    intro payload hpl
    refine ⟨by trivial, ?_⟩
    intro k v
    have hpay : payload = keys_to_transfer selfId hash p.id st.store :=
      (Option.some.injEq _ _ ▸ hpl).symm
    rw [hpay]
    exact mem_keys_to_transfer selfId hash p.id st.store k v
  | some cur =>
    by_cases hr : is_in_range p.id cur.id selfId = true
    · simp only [notify_handler, hp, hr, if_true]
      refine ⟨by simp [hp, hr], ?_, by simp⟩
      intro payload hpl
      refine ⟨by trivial, ?_⟩
      intro k v
      have hpay : payload = keys_to_transfer selfId hash p.id st.store :=
        (Option.some.injEq _ _ ▸ hpl).symm
      rw [hpay]
      exact mem_keys_to_transfer selfId hash p.id st.store k v
    · have hr' : is_in_range p.id cur.id selfId = false := by
        cases hb : is_in_range p.id cur.id selfId
        · rfl
        · exact absurd hb hr
      simp [notify_handler, hp, hr']

/-- C4 witness: a node with no predecessor adopts the caller. -/
theorem c4_notify_adoption_witness :
    (notify_handler 10 (fun _ => 3) ⟨4, "p"⟩ (Node.new 10 "a")).2.isSome = true := by
  have h := c4_notify_adoption 10 (fun _ => 3) ⟨4, "p"⟩ (Node.new 10 "a")
  exact h.1.mp (Or.inl rfl)

/-- C6: the detached transfer task removes the transferred keys from the
local store only after the transfer_keys RPC succeeds; when the connect or
the RPC fails the store is left unchanged. -/
theorem c6_remove_only_after_ack (c t : RpcResult) (ks : List String) (store : Store) :
    ((c = RpcResult.err ∨ t = RpcResult.err) → transfer_task c t ks store = store) ∧
    (c = RpcResult.ok → t = RpcResult.ok → ∀ k,
      storeGet (transfer_task c t ks store) k =
        if k ∈ ks then none else storeGet store k) := by
  constructor
  · intro h
    cases c with
    | err => rfl
    | ok =>
      cases t with
      | err => rfl
      | ok => rcases h with h | h <;> simp at h
  · intro hc ht k
    subst hc
    subst ht
    simp [transfer_task, storeGet_removeAll]

/-- C6 witness: a failed connect leaves the store untouched; a successful
transfer removes the acknowledged key. -/
theorem c6_remove_only_after_ack_witness :
    transfer_task RpcResult.err RpcResult.ok ["k"] [("k", "v")] = [("k", "v")] ∧
    storeGet (transfer_task RpcResult.ok RpcResult.ok ["k"] [("k", "v")]) "k" = none := by
  have h1 := (c6_remove_only_after_ack RpcResult.err RpcResult.ok ["k"]
    [("k", "v")]).1 (Or.inl rfl)
  have h2 := (c6_remove_only_after_ack RpcResult.ok RpcResult.ok ["k"]
    [("k", "v")]).2 rfl rfl "k"
  refine ⟨h1, ?_⟩
  rw [h2]
  simp

/-- C8: semantic absence is not an error — when this node owns the key and
the key is absent, get answers found=false with an empty value as a
successful response; get_predecessor yields a NotFound error exactly when
the predecessor is absent, and the stored predecessor otherwise.  Both are
modelled as pure readers of the state: they never modify it. -/
theorem c8_absence_not_error (selfId : Nat) (st : NodeState) (owner : NodeInfo)
    (key : String) :
    (owner.id = selfId → storeGet st.store key = none →
      get_step selfId st owner key =
        GetOutcome.answered { value := "", found := false }) ∧
    ((∃ m, get_predecessor_handler st = Except.error (Status.notFound m)) ↔
      st.predecessor = none) ∧
    (∀ p, st.predecessor = some p → get_predecessor_handler st = Except.ok p) := by
  refine ⟨?_, ?_, ?_⟩
  · intro howner habsent
    simp [get_step, howner, habsent]
  · cases hp : st.predecessor with
    | none => simp [get_predecessor_handler, hp]
    | some q => simp [get_predecessor_handler, hp]
  · intro p hp
    simp [get_predecessor_handler, hp]

/-- C8 witness: a fresh node that owns every key answers found=false for an
unknown key, and reports NotFound for its absent predecessor. -/
theorem c8_absence_not_error_witness :
    get_step 0 (Node.new 0 "a") ⟨0, "a"⟩ "missing" =
      GetOutcome.answered { value := "", found := false } ∧
    get_predecessor_handler (Node.new 0 "a") =
      Except.error (Status.notFound "No predecessor") := by
  have h := c8_absence_not_error 0 (Node.new 0 "a") ⟨0, "a"⟩ "missing"
  have h2 : (Node.new 0 "a").predecessor = none := rfl
  have _hnf := h.2.1.mpr h2
  exact ⟨h.1 rfl rfl, rfl⟩

/-- Notify never touches the successor list. -/
theorem notify_handler_successor_list (selfId : Nat) (hash : String → Nat)
    (p : NodeInfo) (st : NodeState) :
    (notify_handler selfId hash p st).1.successor_list = st.successor_list := by
  unfold notify_handler
  cases st.predecessor with
  | none => rfl
  | some cur =>
    cases hr : is_in_range p.id cur.id selfId <;> simp [hr]

/-- Put never touches the successor list. -/
theorem put_step_successor_list (selfId : Nat) (st : NodeState) (owner : NodeInfo)
    (key value : String) :
    (put_step selfId st owner key value).1.successor_list = st.successor_list := by
  unfold put_step
  split <;> rfl

/-- Unfolding of the stabilize repair step on a successful RPC: the head is
replaced by x exactly when x is not the protobuf default, its id is in the
open interval (self.id, s.id), and the head id still equals s.id. -/
theorem stabilize_update_ok_eq (selfId : Nat) (s x : NodeInfo) (st : NodeState) :
    stabilize_update selfId s (GetPredResult.ok x) st =
      (if (x.id ≠ 0 ∨ x.address ≠ "") ∧ is_in_range x.id selfId s.id = true ∧
          st.successor_list.head?.map NodeInfo.id = some s.id
        then { st with successor_list := set_head st.successor_list x }
        else st, false) := by
  unfold stabilize_update
  by_cases h1 : x.id ≠ 0 ∨ x.address ≠ ""
  · by_cases h2 : is_in_range x.id selfId s.id = true
    · by_cases h3 : st.successor_list.head?.map NodeInfo.id = some s.id <;>
        simp [h1, h2, h3]
    · simp [h1, h2]
  · simp [h1]

/-- Unfolding of the stabilize repair step on a transport error: the head is
removed (with an early return) exactly when the list has a second entry. -/
theorem stabilize_update_err_eq (selfId : Nat) (s : NodeInfo) (st : NodeState) :
    stabilize_update selfId s GetPredResult.transportErr st =
      if 1 < st.successor_list.length
      then ({ st with successor_list := st.successor_list.tail }, true)
      else (st, false) := by
  unfold stabilize_update
  by_cases h : 1 < st.successor_list.length <;> simp [h]

/-- The stabilize successor-repair step preserves the successor-list
invariant. -/
theorem stabilize_update_wf (selfId : Nat) (s : NodeInfo) (r : GetPredResult)
    (st : NodeState) (hwf : successor_list_wf st) :
    successor_list_wf (stabilize_update selfId s r st).1 := by
  obtain ⟨hne, hlen⟩ := hwf
  cases r with
  | ok x =>
    rw [stabilize_update_ok_eq]
    by_cases hcond : (x.id ≠ 0 ∨ x.address ≠ "") ∧ is_in_range x.id selfId s.id = true ∧
        st.successor_list.head?.map NodeInfo.id = some s.id
    · simp only [if_pos hcond]
      refine ⟨set_head_ne_nil _ _ hne, ?_⟩
      show (set_head st.successor_list x).length ≤ SUCCESSOR_LIST_LIMIT
      rw [set_head_length]
      exact hlen
    · simp only [if_neg hcond]
      exact ⟨hne, hlen⟩
  | notFound => exact ⟨hne, hlen⟩
  | transportErr =>
    rw [stabilize_update_err_eq]
    by_cases h : 1 < st.successor_list.length
    · simp only [if_pos h]
      refine ⟨?_, ?_⟩
      · have h0 : 0 < st.successor_list.tail.length := by
          rw [List.length_tail]
          omega
        exact List.length_pos.mp h0
      · show st.successor_list.tail.length ≤ SUCCESSOR_LIST_LIMIT
        rw [List.length_tail]
        omega
    · simp only [if_neg h]
      exact ⟨hne, hlen⟩

/-- C7: the successor list is non-empty and at most SUCCESSOR_LIST_LIMIT
(= 5) long in the initial state and after every state-mutating operation:
join, stabilize's repair step, the successor-list refresh, notify, put,
replicate, transfer_keys, check_predecessor and fix_fingers; consequently
get_successor never reaches its Internal-error branch. -/
theorem c7_successor_list_invariant (id i : Nat) (addr key value : String)
    (st : NodeState) (info owner p s : NodeInfo) (r : GetPredResult)
    (received : List NodeInfo) (keys : Store) (alive : Bool)
    (result : Option NodeInfo) (hash : String → Nat)
    (hwf : successor_list_wf st) :
    SUCCESSOR_LIST_LIMIT = 5 ∧
    successor_list_wf (Node.new id addr) ∧
    successor_list_wf (join_step st info) ∧
    successor_list_wf (stabilize_update id s r st).1 ∧
    successor_list_wf (update_successor_list st received) ∧
    successor_list_wf (notify_handler id hash p st).1 ∧
    successor_list_wf (put_step id st owner key value).1 ∧
    successor_list_wf (replicate_handler st key value) ∧
    successor_list_wf (transfer_keys_handler st keys) ∧
    successor_list_wf (check_predecessor_step st alive) ∧
    successor_list_wf (fix_fingers_step st i result) ∧
    (∃ shd, get_successor st = Except.ok shd) := by
  obtain ⟨hne, hlen⟩ := hwf
  refine ⟨rfl, ?_, ?_, ?_, ?_, ?_, ?_, ?_, ?_, ?_, ?_, ?_⟩
  · exact ⟨by simp [Node.new], by simp [Node.new, SUCCESSOR_LIST_LIMIT]⟩
  · refine ⟨set_head_ne_nil _ _ hne, ?_⟩
    simp only [join_step, set_head_length]
    exact hlen
  · exact stabilize_update_wf id s r st ⟨hne, hlen⟩
  · unfold update_successor_list
    cases hl : st.successor_list with
    | nil => exact absurd hl hne
    | cons h t =>
      constructor
      · show (h :: received).take SUCCESSOR_LIST_LIMIT ≠ []
        simp [SUCCESSOR_LIST_LIMIT]
      · show ((h :: received).take SUCCESSOR_LIST_LIMIT).length ≤ SUCCESSOR_LIST_LIMIT
        simp [List.length_take]
  · rw [successor_list_wf, notify_handler_successor_list]
    exact ⟨hne, hlen⟩
  · rw [successor_list_wf, put_step_successor_list]
    exact ⟨hne, hlen⟩
  · exact ⟨hne, hlen⟩
  · exact ⟨hne, hlen⟩
  · unfold check_predecessor_step
    split
    · exact ⟨hne, hlen⟩
    · split
      · exact ⟨hne, hlen⟩
      · exact ⟨hne, hlen⟩
  · unfold fix_fingers_step
    cases result with
    | some succ => exact ⟨hne, hlen⟩
    | none => exact ⟨hne, hlen⟩
  · cases hl : st.successor_list with
    | nil => exact absurd hl hne
    | cons h t =>
      refine ⟨h, ?_⟩
      simp [get_successor, hl]

/-- C7 witness: the invariant holds for a fresh node and is preserved by a
join and a successor-list refresh from it. -/
theorem c7_successor_list_invariant_witness :
    successor_list_wf (join_step (Node.new 0 "a") ⟨5, "b"⟩) ∧
    successor_list_wf (update_successor_list (Node.new 0 "a")
      [⟨5, "b"⟩, ⟨6, "c"⟩, ⟨7, "d"⟩, ⟨8, "e"⟩, ⟨9, "f"⟩, ⟨10, "g"⟩]) ∧
    get_successor (Node.new 0 "a") = Except.ok ⟨0, "a"⟩ := by
  have h := c7_successor_list_invariant 0 0 "a" "k" "v" (Node.new 0 "a")
    ⟨5, "b"⟩ ⟨0, "a"⟩ ⟨4, "p"⟩ ⟨0, "a"⟩ GetPredResult.notFound
    [⟨5, "b"⟩, ⟨6, "c"⟩, ⟨7, "d"⟩, ⟨8, "e"⟩, ⟨9, "f"⟩, ⟨10, "g"⟩] [] true none
    (fun _ => 0) (by decide)
  refine ⟨h.2.2.1, h.2.2.2.2.1, rfl⟩

/-- C9: replicate, transfer_keys and notify are idempotent — replicating the
same pair twice gives the same store as once; applying the same
transfer_keys request twice reads the same as once on every key; and once p
is the predecessor a repeated notify from p changes nothing (the adoption
check p.id ∈ (p.id, self.id) is false). -/
theorem c9_idempotence (st : NodeState) (key value : String) (keys : Store)
    (selfId : Nat) (hash : String → Nat) (p : NodeInfo) :
    replicate_handler (replicate_handler st key value) key value =
      replicate_handler st key value ∧
    (∀ k, storeGet (transfer_keys_handler (transfer_keys_handler st keys) keys).store k =
      storeGet (transfer_keys_handler st keys).store k) ∧
    (st.predecessor = some p → notify_handler selfId hash p st = (st, none)) := by
  refine ⟨?_, ?_, ?_⟩
  · simp [replicate_handler, storeInsert_idem]
  · intro k
    simp only [transfer_keys_handler, storeGet_foldl_insert]
    cases hl : lookupLast keys k <;> simp [hl]
  · intro hp
    have hfalse : is_in_range p.id p.id selfId = false := is_in_range_left_endpoint p.id selfId
    simp [notify_handler, hp, hfalse]

/-- C9 witness: a node whose predecessor is already p ignores a repeated
notify from p. -/
theorem c9_idempotence_witness :
    notify_handler 10 (fun _ => 0) ⟨4, "p"⟩
      { predecessor := some ⟨4, "p"⟩, finger_table := [],
        successor_list := [⟨10, "a"⟩], store := [("k", "v")] } =
      ({ predecessor := some ⟨4, "p"⟩, finger_table := [],
         successor_list := [⟨10, "a"⟩], store := [("k", "v")] }, none) := by
  exact (c9_idempotence
    { predecessor := some ⟨4, "p"⟩, finger_table := [],
      successor_list := [⟨10, "a"⟩], store := [("k", "v")] }
    "k" "v" [] 10 (fun _ => 0) ⟨4, "p"⟩).2.2 rfl

/-- C10: when the predecessor is absent, maintain_replication substitutes
self.id for the predecessor id; the degenerate half-open interval
(self.id, self.id] contains every identifier, so every stored key is
classified primary and pushed to each of the first REPLICATION_COUNT
successor-list entries, which are not filtered to exclude self. -/
theorem c10_maintain_replication_no_predecessor (selfId : Nat)
    (hash : String → Nat) (st : NodeState)
    (hpred : st.predecessor = none) (hne : st.successor_list ≠ []) :
    (∀ x, is_in_range_inclusive x selfId selfId = true) ∧
    maintain_replication_pushes selfId hash st =
      st.store.flatMap (fun kv =>
        (st.successor_list.take REPLICATION_COUNT).map (fun s => (kv, s))) ∧
    (∀ kv s, kv ∈ st.store → s ∈ st.successor_list.take REPLICATION_COUNT →
      (kv, s) ∈ maintain_replication_pushes selfId hash st) := by
  have hempty : (st.successor_list.take REPLICATION_COUNT).isEmpty = false := by
    cases hl : st.successor_list with
    | nil => exact absurd hl hne
    | cons h t => simp [REPLICATION_COUNT]
  have hfilter :
      st.store.filter (fun kv => is_in_range_inclusive (hash kv.1) selfId selfId) =
        st.store :=
    List.filter_eq_self.mpr (fun kv _ => is_in_range_inclusive_degenerate (hash kv.1) selfId)
  have hmain : maintain_replication_pushes selfId hash st =
      st.store.flatMap (fun kv =>
        (st.successor_list.take REPLICATION_COUNT).map (fun s => (kv, s))) := by
    unfold maintain_replication_pushes
    rw [hpred]
    simp only [hempty, Bool.false_eq_true, if_false, hfilter]
  refine ⟨fun x => is_in_range_inclusive_degenerate x selfId, hmain, ?_⟩
  intro kv s hkv hs
  rw [hmain]
  rw [List.mem_flatMap]
  exact ⟨kv, hkv, List.mem_map.mpr ⟨s, hs, rfl⟩⟩

/-- C10 witness: with no predecessor, a stored key is pushed to the
successor-list prefix including the entry equal to self. -/
theorem c10_maintain_replication_no_predecessor_witness :
    (("k", "v"), (⟨1, "a"⟩ : NodeInfo)) ∈ maintain_replication_pushes 1 (fun _ => 7)
      { predecessor := none, finger_table := [],
        successor_list := [⟨1, "a"⟩, ⟨2, "b"⟩], store := [("k", "v")] } := by
  have h := c10_maintain_replication_no_predecessor 1 (fun _ => 7)
    { predecessor := none, finger_table := [],
      successor_list := [⟨1, "a"⟩, ⟨2, "b"⟩], store := [("k", "v")] }
    rfl (by decide)
  exact h.2.2 ("k", "v") ⟨1, "a"⟩ (by decide) (by decide)

end Chord
